import Mathlib

/-!
Shallow embedding of the core of the `nus` dependency updater
(`src/app/index.js`, `src/app/select.js`, `src/unnamed/part_001`).

The external semantic-version library (`semver/ranges/max-satisfying.js`,
`semver/functions/lt.js`) is not part of this repository; it is modelled as a
parameter `SemverOps` together with the behavioural facts `SemverSpec` the
npm semver primitives provide (a returned maximum is a member of the list,
satisfies the range, and is greatest; `lt` is irreflexive; a version
satisfying a range that is itself a literal version string is never above
that literal).  A small executable instance `miniSemver` (numeric
`major.minor.patch` versions, exact and `<=` ranges) is provided and proved
to satisfy `SemverSpec`, so that every theorem can be exercised on concrete
inputs.

JavaScript strings are Lean `String`s; `null`/missing values are `Option`;
string truthiness (`null`, `undefined` and `""` are falsy) is `isTruthy`;
JS object maps are association lists read with `List.lookup`; timestamps
(`Date.now()`, `new Date(s).getTime()`) are `Int` milliseconds, with the
date parser a parameter `parseDate : String → Option Int` (`none` models
`NaN`).
-/

/-- Characters of a string, lowercased one by one (models `s.toLowerCase()`
for the ASCII strings the tool works with). -/
def lowerChars (s : String) : List Char := s.data.map Char.toLower

/-- Does `s` start with `p`?  (models JS `String.prototype.startsWith`). -/
def strStartsWith (s p : String) : Bool := p.data.isPrefixOf s.data

/-- Does `s` contain the character `c`?  (models JS `includes` for a
one-character needle). -/
def strContainsChar (s : String) (c : Char) : Bool := s.data.contains c

/-- Drop the first `n` characters of `s`. -/
def strDrop (s : String) (n : Nat) : String := String.mk (s.data.drop n)

/-- Split a character list on a separator character, JS `split` style:
`"".split(c)` is `[""]`, separators at the ends produce empty fields. -/
def splitCharList (c : Char) : List Char → List (List Char)
  | [] => [[]]
  | x :: xs =>
    let r := splitCharList c xs
    if x = c then [] :: r
    else
      match r with
      | h :: t => (x :: h) :: t
      | [] => [[x]]

/-- String-level split on a single character (models JS `s.split("@")`). -/
def strSplitOnChar (c : Char) (s : String) : List String :=
  (splitCharList c s.data).map String.mk

/-- Join strings with a one-character separator (models JS `arr.join("@")`). -/
def joinWithChar (c : Char) : List String → String
  | [] => ""
  | [x] => x
  | x :: y :: xs => x ++ String.mk [c] ++ joinWithChar c (y :: xs)

/-- Everything before the last `"@"` of `s` (empty when `s` has no `"@"`),
exactly as `s.split("@").slice(0, -1).join("@")` computes it. -/
def beforeLastAt (s : String) : String :=
  joinWithChar '@' (strSplitOnChar '@' s).dropLast

/-- JS string truthiness for a nullable string: `null` and `""` are falsy. -/
def isTruthy : Option String → Bool
  | some s => !(s == "")
  | none => false

/-- Interface of the external npm semver primitives used by the program. -/
structure SemverOps where
  maxSatisfying : List String → String → Option String
  lt : String → String → Bool
  satisfies : String → String → Bool

/-- Behavioural facts about the npm semver primitives: `maxSatisfying`
returns a member of the list that satisfies the range and is not below any
other satisfying member, and returns a result whenever some member
satisfies; `lt` is irreflexive; and a version satisfying a range is never
strictly above the range string taken as a literal version (for npm semver,
when the range string is a valid version only equal versions satisfy it,
and `lt` on an unparsable left operand is modelled as `false`). -/
structure SemverSpec (sem : SemverOps) : Prop where
  max_mem : ∀ vs r v, sem.maxSatisfying vs r = some v → v ∈ vs
  max_sat : ∀ vs r v, sem.maxSatisfying vs r = some v → sem.satisfies v r = true
  max_complete : ∀ vs r v, v ∈ vs → sem.satisfies v r = true →
    sem.maxSatisfying vs r ≠ none
  max_greatest : ∀ vs r v u, sem.maxSatisfying vs r = some v → u ∈ vs →
    sem.satisfies u r = true → sem.lt v u = false
  lt_irrefl : ∀ v, sem.lt v v = false
  sat_lit : ∀ v r, sem.satisfies v r = true → sem.lt r v = false

/-- `findByRange` from `src/app/index.js`: exact membership of the range
string wins, otherwise defer to the library's `maxSatisfying`. -/
def findByRange (sem : SemverOps) (versions : List String) (range : String) :
    Option String :=
  if versions.contains range then some range
  else sem.maxSatisfying versions range

/-- `findVersionType` from `src/app/index.js`: returns the computed alias
target (for `npm:` versions) and the version-type tag, one of `"semver"`,
`"alias"`, `"git"`, `"url"`, `"file"`. -/
def findVersionType (name version : String) : Option String × String :=
  let base :=
    if strStartsWith version "npm:" then
      (some (beforeLastAt (strDrop version 4)), "alias")
    else ((none : Option String), "semver")
  let hasSlashes := strContainsChar name '/' || strContainsChar version '/'
  if hasSlashes && !(strStartsWith name "@") then
    if strStartsWith version "http:" || strStartsWith version "https:" then
      (base.1, "url")
    else if strStartsWith version "file:" then (base.1, "file")
    else (base.1, "git")
  else base

/-- The per-version age filter of `versionInfoToAllowedVersions`
(`src/app/index.js` lines 87–93): the release time must be present and
truthy, parse to a timestamp, and that timestamp must be at most the cutoff
(`new Date(..).getTime() <= minAge`; an unparsable date is JS `NaN`, which
fails the comparison). -/
def allowedByAge (parseDate : String → Option Int) (minAge : Int)
    (releaseTimes : List (String × Option String)) (v : String) : Bool :=
  match releaseTimes.lookup v with
  | some (some s) =>
    if s == "" then false
    else
      match parseDate s with
      | some t => decide (t ≤ minAge)
      | none => false
  | _ => false

/-- Release-time filtering from `versionInfoToAllowedVersions`
(`src/app/index.js` lines 83–95): drop the synthetic `modified`/`created`
keys for the full list, and keep for the allowed list the versions passing
the age filter. -/
def versionInfoToAllowedVersions (parseDate : String → Option Int)
    (now minAgeCfg : Int) (releaseTimes : List (String × Option String)) :
    List String × List String :=
  let allVersions := (releaseTimes.map Prod.fst).filter
    (fun v => !(v == "modified") && !(v == "created"))
  let minAge := now - minAgeCfg * 1000 * 60
  let allowedVersions := allVersions.filter
    (allowedByAge parseDate minAge releaseTimes)
  (allowedVersions, allVersions)

/-- The dist-tag rewrite step of `findWantedVersion`: a desired policy that
names a dist-tag with a truthy value becomes `"<=" ++` that tag's version,
anything else is used verbatim. -/
def resolveDesiredRange (tags : List (String × Option String))
    (desired : String) : String :=
  match tags.lookup desired with
  | some (some t) => if t == "" then desired else "<=" ++ t
  | _ => desired

/-- The resolver's successful outcome: the age-gated `wanted` version and
the age-unfiltered `newest` version. -/
structure WantedInfo where
  newest : Option String
  wanted : String
deriving DecidableEq, Repr

/-- `findWantedVersion` from `src/app/index.js` lines 108–128, with the
`console` output returned as a list of lines next to the value.  A `none`
first component is the code's `return null` (the failed decision). -/
def findWantedVersion (sem : SemverOps) (allowedVersions allVersions : List String)
    (desired paddedName : String) (tags : List (String × Option String))
    (version : String) : Option WantedInfo × List String :=
  let desiredRange := resolveDesiredRange tags desired
  let wanted := findByRange sem allowedVersions desiredRange
  let newest := findByRange sem allVersions desiredRange
  if isTruthy newest && !(wanted == newest)
      && (!(isTruthy wanted) || sem.lt (wanted.getD "") version) then
    (none,
     ["X " ++ paddedName ++ version ++ " @" ++ desired ++ " !" ++ newest.getD "",
      "X Failed, current and more recent versions too new"])
  else if !(isTruthy wanted) then
    (none,
     ["X " ++ paddedName ++ version ++ " @" ++ desired,
      "X Failed, no " ++ desired ++ " version found"])
  else
    (some ⟨newest, wanted.getD ""⟩, [])

/-- Output of `logResultToUser`: the printed line and the returned string. -/
structure LogResult where
  line : String
  ret : String
deriving DecidableEq, Repr

/-- `logResultToUser` from `src/app/index.js` lines 142–169: compute the
two-character status prefix (later assignments win), the `!newest`,
`@policy`/`~latest` and `> wanted` fragments, the printed line, and the
return value (alias-qualified when the package is an alias). -/
def logResultToUser (aliasT : Option String) (desired latest : String)
    (newest : Option String) (paddedName version wanted : String) : LogResult :=
  let st1 := "  "
  let p1 :=
    if isTruthy newest && !(wanted == newest.getD "") then
      ("! ", " !" ++ newest.getD "")
    else (st1, "")
  let p2 :=
    if !(desired == "latest") then
      ("~ ", " @" ++ desired ++ (if !(desired == latest) then " ~" ++ latest else ""))
    else (p1.1, "")
  let p3 := if !(wanted == version) then ("> ", " > " ++ wanted) else (p2.1, "")
  let line := p3.1 ++ paddedName ++ version ++ p3.2 ++ p2.2 ++ p1.2
  let ret :=
    match aliasT with
    | some a => "npm:" ++ a ++ "@" ++ wanted
    | none => wanted
  ⟨line, ret⟩

/-- The three status booleans of `versionStatus` (`src/app/index.js`
lines 258–265). -/
structure VersionStatus where
  blocked : Bool
  latest : Bool
  semi : Bool
deriving DecidableEq, Repr

/-- `versionStatus`: blocked / latest / semi flags from the declared
version, the wanted version and the `latest` dist-tag's version. -/
def versionStatus (version wanted latestTag : String) : VersionStatus :=
  ⟨version == wanted && !(wanted == latestTag),
   !(version == wanted) && wanted == latestTag,
   !(version == wanted) && !(wanted == latestTag)⟩

/-- The four-way status classification the specification talks about. -/
inductive Status where
  | unchanged
  | blocked
  | semi
  | latest
deriving DecidableEq, Repr

/-- Map the code's three mutually-exclusive flags to the four-way status:
no flag set means `unchanged`. -/
def statusOf (vs : VersionStatus) : Status :=
  if vs.blocked then .blocked
  else if vs.latest then .latest
  else if vs.semi then .semi
  else .unchanged

/-- `shouldAskVersion`, the ask gate (`src/app/index.js` lines 266–274). -/
def shouldAskVersion (ask : String) (vs : VersionStatus) : Bool :=
  ask == "all" ||
  (ask == "blocked" && vs.blocked) ||
  (ask == "semi" && vs.semi) ||
  (ask == "latest" && vs.latest) ||
  (ask == "nonlatest" && (vs.blocked || vs.semi)) ||
  (ask == "changed" && (vs.latest || vs.semi))

/-- The catalog data `fetchVersionInfo` returns: possibly-missing dist-tag
and release-time maps (`?.` accesses in the guard are `Option`s here). -/
structure FetchInfo where
  distTags : Option (List (String × Option String))
  time : Option (List (String × Option String))

/-- The truthy `latest` dist-tag of a dist-tag map, `none` when the key is
missing, `null` or the empty string (models `info?.distTags?.latest`
truthiness). -/
def latestTag (distTags : List (String × Option String)) : Option String :=
  match distTags.lookup "latest" with
  | some (some l) => if l == "" then none else some l
  | _ => none

/-- Does the fetched info fail the guard
`!info?.distTags?.latest || !info?.time`? -/
def infoBad (info : Option FetchInfo) : Bool :=
  match info with
  | none => true
  | some i =>
    match i.distTags, i.time with
    | some d, some _ => (latestTag d).isNone
    | _, _ => true

/-- Result of one `updatePackage` call: the version written back to the
manifest entry, the printed lines, and — when the interactive selector was
engaged — the option list and initial selection passed to it. -/
structure UpdateResult where
  result : String
  logs : List String
  asked : Option (List String × String)

/-- `updatePackage` from `src/unnamed/part_001` lines 171–259 (the same
logic is inlined in the `src/app/index.js` loop, lines 224–307): classify
the entry, short-circuit non-registry types, fail on bad catalog data,
resolve, optionally run the interactive selector (modelled by `askSelect`,
which receives the full version list and the initial selection), and return
the version to store.  `console` output is collected in `logs`. -/
def updatePackage (sem : SemverOps) (parseDate : String → Option Int)
    (now minAgeCfg : Int) (cfgAsk : String)
    (overrides : List (String × String)) (tool : String)
    (askSelect : List String → String → String)
    (name paddedName version : String) (info : Option FetchInfo) :
    UpdateResult :=
  let vt := findVersionType name version
  let aliasT := vt.1
  let verType := vt.2
  let desired := (overrides.lookup name).getD "latest"
  if verType == "file" || verType == "git" || verType == "url" then
    let hash := String.mk (desired.data.dropWhile (· == '#'))
    if hash == "latest" || !(verType == "git") then
      ⟨version, ["- " ++ paddedName ++ verType], none⟩
    else
      ⟨String.mk (version.data.takeWhile (· ≠ '#')) ++ "#" ++ hash,
       ["- " ++ paddedName ++ "git#" ++ hash], none⟩
  else
    match info with
    | none =>
      ⟨version, ["X " ++ paddedName ++ version ++ " @" ++ desired,
                 "X Failed, " ++ tool ++ " request error"], none⟩
    | some i =>
      match i.distTags, i.time with
      | some distTags, some timeMap =>
        match latestTag distTags with
        | some latest =>
          let va := versionInfoToAllowedVersions parseDate now minAgeCfg timeMap
          let fw := findWantedVersion sem va.1 va.2 desired paddedName distTags version
          match fw.1 with
          | some wi =>
            let st := versionStatus version wi.wanted latest
            if shouldAskVersion cfgAsk st then
              let preLine := (logResultToUser aliasT desired latest wi.newest
                paddedName version wi.wanted).line
              let selected := askSelect va.2 wi.wanted
              let desired2 := if selected == latest then "latest" else selected
              let finalLine := (logResultToUser aliasT desired2 latest none
                paddedName version selected).line
              ⟨selected, fw.2 ++ [preLine, finalLine], some (va.2, wi.wanted)⟩
            else
              let finalLine := (logResultToUser aliasT desired latest wi.newest
                paddedName version wi.wanted).line
              ⟨wi.wanted, fw.2 ++ [finalLine], none⟩
          | none => ⟨version, fw.2, none⟩
        | none =>
          ⟨version, ["X " ++ paddedName ++ version ++ " @" ++ desired,
                     "X Failed, " ++ tool ++ " request error"], none⟩
      | _, _ =>
        ⟨version, ["X " ++ paddedName ++ version ++ " @" ++ desired,
                   "X Failed, " ++ tool ++ " request error"], none⟩

/-- One pass of the `for (const ch of s.toLowerCase())` loop of `filter`
(`src/app/select.js` lines 24–38): advance the pointer `i` into the
lowercased query when the current character matches (indexing past the end,
JS `undefined`, never matches), and succeed as soon as `i` reaches the
query's length. -/
def fuzzyStep (qlow : List Char) (qlen : Nat) : List Char → Nat → Bool
  | [], _ => false
  | c :: rest, i =>
    let i2 :=
      match qlow[i]? with
      | some qc => if c = qc then i + 1 else i
      | none => i
    if i2 = qlen then true else fuzzyStep qlow qlen rest i2

/-- The per-option predicate of `filter` in `src/app/select.js`: an empty
query matches everything, otherwise run the subsequence scan over the
lowercased characters. -/
def matchesQuery (query s : String) : Bool :=
  if query == "" then true
  else fuzzyStep (lowerChars query) query.length (lowerChars s) 0

/-- `filter` from `src/app/select.js` lines 24–38. -/
def filterOptions (options : List String) (query : String) : List String :=
  options.filter (fun s => matchesQuery query s)

/-- The per-dependency-group update loop of `updater`
(`src/unnamed/part_001`): each manifest entry is replaced by the result of
its own `updatePackage` call. -/
def updateAll (sem : SemverOps) (parseDate : String → Option Int)
    (now minAgeCfg : Int) (cfgAsk : String)
    (overrides : List (String × String)) (tool : String)
    (askSelect : List String → String → String) (padOf : String → String)
    (fetch : String → Option FetchInfo) (entries : List (String × String)) :
    List (String × String) :=
  entries.map (fun e =>
    (e.1, (updatePackage sem parseDate now minAgeCfg cfgAsk overrides tool
      askSelect e.1 (padOf e.1) e.2 (fetch e.1)).result))

/-- Parse a non-empty all-digit character list as a natural number. -/
def digitsToNatAux : Nat → List Char → Option Nat
  | acc, [] => some acc
  | acc, c :: cs =>
    if c.isDigit then digitsToNatAux (acc * 10 + (c.toNat - 48)) cs
    else none

/-- Parse a non-empty decimal string. -/
def parseNatStr (s : String) : Option Nat :=
  if s.data.isEmpty then none else digitsToNatAux 0 s.data

/-- Parse a plain `major.minor.patch` version string. -/
def parseSemTriple (s : String) : Option (Nat × Nat × Nat) :=
  match strSplitOnChar '.' s with
  | [a, b, c] =>
    match parseNatStr a, parseNatStr b, parseNatStr c with
    | some x, some y, some z => some (x, y, z)
    | _, _, _ => none
  | _ => none

/-- Lexicographic strict order on version triples. -/
def tripleLt (a b : Nat × Nat × Nat) : Bool :=
  a.1 < b.1 || (a.1 == b.1 && (a.2.1 < b.2.1 || (a.2.1 == b.2.1 && a.2.2 < b.2.2)))

/-- The ranges the mini semver instance understands. -/
inductive MiniRange where
  | exact : Nat × Nat × Nat → MiniRange
  | upTo : Nat × Nat × Nat → MiniRange

/-- Parse a mini range: `<=x.y.z` or a literal version `x.y.z`. -/
def parseMiniRange (s : String) : Option MiniRange :=
  if strStartsWith s "<=" then (parseSemTriple (strDrop s 2)).map MiniRange.upTo
  else (parseSemTriple s).map MiniRange.exact

/-- Satisfaction for the mini semver instance: both sides must parse. -/
def miniSatisfies (v r : String) : Bool :=
  match parseMiniRange r, parseSemTriple v with
  | some (.exact t), some pv => pv == t
  | some (.upTo t), some pv => tripleLt pv t || pv == t
  | _, _ => false

/-- `lt` for the mini semver instance; unparsable operands compare `false`
(the real library throws there, which the program never relies on). -/
def miniLt (v w : String) : Bool :=
  match parseSemTriple v, parseSemTriple w with
  | some a, some b => tripleLt a b
  | _, _ => false

/-- One step of the maximum-satisfying scan: keep the larger of the
accumulator and the next satisfying version. -/
def miniMaxStep (r : String) (acc : Option String) (v : String) : Option String :=
  match acc with
  | none => if miniSatisfies v r then some v else none
  | some m => if miniSatisfies v r && miniLt m v then some v else some m

/-- `maxSatisfying` for the mini semver instance: left fold keeping the
greatest satisfying version seen so far. -/
def miniMaxSatisfying (vs : List String) (r : String) : Option String :=
  vs.foldl (miniMaxStep r) none

/-- The concrete executable semver instance used to exercise the theorems. -/
def miniSemver : SemverOps :=
  ⟨miniMaxSatisfying, miniLt, miniSatisfies⟩

/-- Date parser used by the concrete witnesses: plain decimal milliseconds. -/
def parseDateNum (s : String) : Option Int :=
  (parseNatStr s).map Int.ofNat

/-- The version-type classifier as the amended specification describes it:
slash-based git detection first (refined by `http(s):`/`file:` schemes),
then the `npm:` alias rule, then plain registry; the alias target is
computed from the marker-stripped string whenever the marker is present. -/
def findVersionTypeAmendedSpec (name version : String) : Option String × String :=
  let aliasT :=
    if strStartsWith version "npm:" then some (beforeLastAt (strDrop version 4))
    else none
  let ty :=
    if (strContainsChar name '/' || strContainsChar version '/')
        && !(strStartsWith name "@") then
      if strStartsWith version "http:" || strStartsWith version "https:" then "url"
      else if strStartsWith version "file:" then "file"
      else "git"
    else if strStartsWith version "npm:" then "alias"
    else "semver"
  (aliasT, ty)

/-! ### Theorems -/

/-- C7 counterexample: a declared version carrying the `npm:` alias marker
but containing a path separator (any alias of a scoped package) is
classified `"git"`, not `"alias"` — the slash-based git check overrides the
alias check, contrary to the claim's priority statement. -/
theorem c7_alias_priority_counterexample :
    ¬ ((findVersionType "custom" "npm:@scope/pkg@1.0.0").2 = "alias") := by
  decide

/-- C7 (amended): the classifier equals the rule set with the priorities
reversed — slash-based git detection (with its `http(s):`/`file:`
refinements) takes priority over alias detection; in the no-slash (or
scoped-name) case the `npm:` marker yields `"alias"` with the
before-the-last-`"@"` alias target, and otherwise the type is `"semver"`;
the alias target is computed whenever the marker is present, even when the
slash rule wins. -/
theorem c7_version_type_classifier (name version : String) :
    findVersionType name version = findVersionTypeAmendedSpec name version := by
  unfold findVersionType findVersionTypeAmendedSpec
  by_cases hn : strStartsWith version "npm:" = true <;>
    by_cases hs : ((strContainsChar name '/' || strContainsChar version '/')
      && !(strStartsWith name "@")) = true <;>
      simp only [hn, hs, Bool.false_eq_true, if_true, if_false] <;>
      split <;> try split
  all_goals rfl

/-- The code's four-way status is a pure function of the two equalities
`declared = wanted` and `wanted = latest-tag`. -/
theorem statusOf_versionStatus (v w l : String) :
    statusOf (versionStatus v w l) =
      if v = w then (if w = l then Status.unchanged else Status.blocked)
      else (if w = l then Status.latest else Status.semi) := by
  by_cases h1 : v = w <;> by_cases h2 : w = l <;>
    simp [versionStatus, statusOf, h1, h2]

/-- C5 counterexample: with declared = wanted = `"1.0.0"`, the `latest`
tag's version also `"1.0.0"` and the configured policy `"^1"`, the code
classifies the decision `Unchanged` although the policy is not the default
`"latest"`, so the claim's "Unchanged iff declared==wanted and the policy
is the default" (and hence exhaustiveness of its four statuses) fails. -/
theorem c5_unchanged_needs_policy_counterexample :
    ¬ (statusOf (versionStatus "1.0.0" "1.0.0" "1.0.0") = Status.unchanged ↔
        ("1.0.0" : String) = "1.0.0" ∧ ("^1" : String) = "latest") := by
  decide

/-- C5 (amended): the classification depends only on the declared and
wanted versions and the `latest` tag's version — `Unchanged` iff
declared = wanted and wanted equals the `latest` tag's version, `Blocked`
iff declared = wanted and wanted differs from it, `Latest` iff
declared ≠ wanted and wanted equals it, `Semi` iff declared ≠ wanted and
wanted differs from it; the four cases are mutually exclusive and
exhaustive because `statusOf` is a total function into the four-element
`Status` type. -/
theorem c5_status_classification (v w l : String) :
    (statusOf (versionStatus v w l) = Status.unchanged ↔ v = w ∧ w = l)
    ∧ (statusOf (versionStatus v w l) = Status.blocked ↔ v = w ∧ w ≠ l)
    ∧ (statusOf (versionStatus v w l) = Status.latest ↔ v ≠ w ∧ w = l)
    ∧ (statusOf (versionStatus v w l) = Status.semi ↔ v ≠ w ∧ w ≠ l) := by
  rw [statusOf_versionStatus]
  by_cases h1 : v = w <;> by_cases h2 : w = l <;> simp_all

/-- C6: the ask gate follows the truth table — `all` fires on every status
(including `Unchanged`), `blocked`/`semi`/`latest` fire exactly on their
own status, `nonlatest` on `Blocked` or `Semi`, `changed` on `Semi` or
`Latest`, and `none` never; and a failed resolution never engages the
selector: `updatePackage` records no `asked` interaction when
`findWantedVersion` returns the failed decision. -/
theorem c6_ask_gate_truth_table :
    (∀ v w l : String,
      shouldAskVersion "all" (versionStatus v w l) = true
      ∧ shouldAskVersion "blocked" (versionStatus v w l) =
          decide (statusOf (versionStatus v w l) = Status.blocked)
      ∧ shouldAskVersion "semi" (versionStatus v w l) =
          decide (statusOf (versionStatus v w l) = Status.semi)
      ∧ shouldAskVersion "latest" (versionStatus v w l) =
          decide (statusOf (versionStatus v w l) = Status.latest)
      ∧ shouldAskVersion "nonlatest" (versionStatus v w l) =
          (decide (statusOf (versionStatus v w l) = Status.blocked)
            || decide (statusOf (versionStatus v w l) = Status.semi))
      ∧ shouldAskVersion "changed" (versionStatus v w l) =
          (decide (statusOf (versionStatus v w l) = Status.semi)
            || decide (statusOf (versionStatus v w l) = Status.latest))
      ∧ shouldAskVersion "none" (versionStatus v w l) = false)
    ∧ (∀ (sem : SemverOps) (parseDate : String → Option Int)
        (now minAgeCfg : Int) (cfgAsk : String)
        (overrides : List (String × String)) (tool : String)
        (askSelect : List String → String → String)
        (name paddedName version : String)
        (distTags timeMap : List (String × Option String)),
      (findWantedVersion sem
          (versionInfoToAllowedVersions parseDate now minAgeCfg timeMap).1
          (versionInfoToAllowedVersions parseDate now minAgeCfg timeMap).2
          ((overrides.lookup name).getD "latest") paddedName distTags
          version).1 = none →
      (updatePackage sem parseDate now minAgeCfg cfgAsk overrides tool
          askSelect name paddedName version
          (some ⟨some distTags, some timeMap⟩)).asked = none) := by
  constructor
  · intro v w l
    by_cases h1 : v = w <;> by_cases h2 : w = l <;> by_cases h3 : v = l <;>
      simp_all [versionStatus, statusOf, shouldAskVersion]
  · intro sem parseDate now minAgeCfg cfgAsk overrides tool askSelect
      name paddedName version distTags timeMap h
    rcases hL : latestTag distTags with _ | latest <;>
      simp only [updatePackage, hL, h] <;> split
    · split <;> rfl
    · rfl
    · split <;> rfl
    · rfl

/-- Inversion for `findByRange`: a result is either the verbatim range
string (when it is a member) or the library's maximum. -/
theorem findByRange_inv (sem : SemverOps) (versions : List String)
    (range v : String) (h : findByRange sem versions range = some v) :
    (versions.contains range = true ∧ v = range)
    ∨ (versions.contains range = false
        ∧ sem.maxSatisfying versions range = some v) := by
  unfold findByRange at h
  by_cases hc : versions.contains range = true
  · left
    refine ⟨hc, ?_⟩
    rw [if_pos hc] at h
    exact (Option.some_injective _ h).symm
  · right
    rw [if_neg hc] at h
    exact ⟨Bool.not_eq_true _ ▸ Bool.of_not_eq_true hc, h⟩

/-- A result of `findByRange` is a member of the version list. -/
theorem findByRange_mem (sem : SemverOps) (hs : SemverSpec sem)
    (versions : List String) (range v : String)
    (h : findByRange sem versions range = some v) : v ∈ versions := by
  rcases findByRange_inv sem versions range v h with ⟨hc, rfl⟩ | ⟨_, hm⟩
  · exact List.mem_of_elem_eq_true hc
  · exact hs.max_mem versions range v hm

/-- C4: in `findByRange`, a range string present verbatim in the version
list is returned as-is no matter whether it parses as a range; otherwise
the result is the greatest satisfying member of the list (with respect to
the library's `lt` and `satisfies`), and is absent exactly when no member
satisfies the range. -/
theorem c4_find_by_range_exact_precedence (sem : SemverOps)
    (hs : SemverSpec sem) (versions : List String) (range : String) :
    (versions.contains range = true →
      findByRange sem versions range = some range)
    ∧ (versions.contains range = false →
      (∀ v, findByRange sem versions range = some v →
        v ∈ versions ∧ sem.satisfies v range = true
        ∧ ∀ u ∈ versions, sem.satisfies u range = true → sem.lt v u = false)
      ∧ (findByRange sem versions range = none →
        ∀ u ∈ versions, sem.satisfies u range = false)) := by
  constructor
  · intro hc
    unfold findByRange
    rw [if_pos hc]
  · intro hc
    constructor
    · intro v hv
      unfold findByRange at hv
      rw [hc] at hv
      simp only [Bool.false_eq_true, if_false] at hv
      exact ⟨hs.max_mem versions range v hv, hs.max_sat versions range v hv,
        fun u hu hsat => hs.max_greatest versions range v u hv hu hsat⟩
    · intro hn u hu
      unfold findByRange at hn
      rw [hc] at hn
      simp only [Bool.false_eq_true, if_false] at hn
      by_contra hsat
      exact hs.max_complete versions range u hu
        (Bool.not_eq_false _ ▸ Bool.of_not_eq_false hsat) hn


/-- A truthy optional string is a `some` of a non-empty string. -/
theorem isTruthy_eq_true (o : Option String) (h : isTruthy o = true) :
    ∃ s, o = some s ∧ s ≠ "" := by
  cases o with
  | none => simp [isTruthy] at h
  | some s =>
    refine ⟨s, rfl, ?_⟩
    simpa [isTruthy] using h

/-- Inversion for a successful resolution: the wanted value is the
age-gated `findByRange` result (non-empty), the newest field is the
unfiltered `findByRange` result, and when the newest value is truthy and
differs from wanted, wanted is not semver-below the declared version. -/
theorem findWantedVersion_some_inv (sem : SemverOps)
    (allowed all : List String) (desired pad : String)
    (tags : List (String × Option String)) (version : String)
    (wi : WantedInfo)
    (h : (findWantedVersion sem allowed all desired pad tags version).1 = some wi) :
    findByRange sem allowed (resolveDesiredRange tags desired) = some wi.wanted
    ∧ wi.wanted ≠ ""
    ∧ findByRange sem all (resolveDesiredRange tags desired) = wi.newest
    ∧ (isTruthy wi.newest = true → wi.newest ≠ some wi.wanted →
        sem.lt wi.wanted version = false) := by
  simp only [findWantedVersion] at h
  split at h
  · simp at h
  · split at h
    · simp at h
    · rename_i hc1 hc2
      simp only [Prod.fst, Option.some.injEq] at h
      subst h
      simp only [Bool.not_eq_true, Bool.not_eq_false] at hc2
      have htru : isTruthy (findByRange sem allowed
          (resolveDesiredRange tags desired)) = true := by
        revert hc2
        cases isTruthy (findByRange sem allowed (resolveDesiredRange tags desired)) <;>
          simp
      obtain ⟨w, hw, hwne⟩ := isTruthy_eq_true _ htru
      rw [hw]
      refine ⟨rfl, by simpa using hwne, rfl, ?_⟩
      intro hnt hne
      by_contra hlt
      rw [Bool.not_eq_false] at hlt
      apply hc1
      have hbne : ((findByRange sem allowed (resolveDesiredRange tags desired) ==
          findByRange sem all (resolveDesiredRange tags desired))) = false := by
        rw [hw, beq_eq_false_iff_ne]
        intro hh
        exact hne (by simpa [hw] using hh.symm)
      simp only [hbne, Bool.not_false, Bool.and_true, hnt, Bool.true_and]
      have hl2 : sem.lt w version = true := by simpa using hlt
      simp [hl2, hw]

/-- When the age-gated `findByRange` result is absent the resolver always
fails. -/
theorem findWantedVersion_none_of_wanted_none (sem : SemverOps)
    (allowed all : List String) (desired pad : String)
    (tags : List (String × Option String)) (version : String)
    (hwn : findByRange sem allowed (resolveDesiredRange tags desired) = none) :
    (findWantedVersion sem allowed all desired pad tags version).1 = none := by
  simp only [findWantedVersion, hwn]
  split
  · rfl
  · split
    · rfl
    · rename_i hcc
      simp [isTruthy] at hcc

/-- A concatenation starts with its first part. -/
theorem strStartsWith_append (p t : String) : strStartsWith (p ++ t) p = true := by
  show (p.data.isPrefixOf (p.data ++ t.data)) = true
  rw [List.isPrefixOf_iff_prefix]
  exact List.prefix_append p.data t.data

/-- Every failed resolution prints a line prefixed with `X `. -/
theorem findWantedVersion_failed_logs (sem : SemverOps)
    (allowed all : List String) (desired pad : String)
    (tags : List (String × Option String)) (version : String)
    (h : (findWantedVersion sem allowed all desired pad tags version).1 = none) :
    ∃ line ∈ (findWantedVersion sem allowed all desired pad tags version).2,
      strStartsWith line "X " = true := by
  simp only [findWantedVersion] at h ⊢
  split at h
  · rename_i hc
    simp only [hc, if_true]
    refine ⟨_, List.mem_cons_self _ _, ?_⟩
    simp only [String.append_assoc]
    exact strStartsWith_append "X " _
  · split at h
    · rename_i hc1 hc2
      rw [Bool.of_not_eq_true hc1]
      simp only [Bool.false_eq_true, if_false, hc2, if_true]
      refine ⟨_, List.mem_cons_self _ _, ?_⟩
      simp only [String.append_assoc]
      exact strStartsWith_append "X " _
    · simp at h

/-- Whenever the age-gated lookup produces a value, the unfiltered lookup
over a superset produces one as well. -/
theorem newest_isSome_of_wanted_isSome (sem : SemverOps) (hs : SemverSpec sem)
    (allowed all : List String) (r : String) (hsub : allowed ⊆ all)
    (wv : String) (hw : findByRange sem allowed r = some wv) :
    findByRange sem all r ≠ none := by
  rcases findByRange_inv sem allowed r wv hw with ⟨hc, rfl⟩ | ⟨hc, hm⟩
  · have : wv ∈ all := hsub (List.mem_of_elem_eq_true hc)
    unfold findByRange
    rw [if_pos (List.elem_eq_true_of_mem this)]
    simp
  · have hmem : wv ∈ all := hsub (hs.max_mem allowed r wv hm)
    have hsat : sem.satisfies wv r = true := hs.max_sat allowed r wv hm
    unfold findByRange
    split
    · simp
    · exact hs.max_complete all r wv hmem hsat


/-- Characterisation of the age filter. -/
theorem allowedByAge_iff (parseDate : String → Option Int) (minAge : Int)
    (releaseTimes : List (String × Option String)) (v : String) :
    allowedByAge parseDate minAge releaseTimes v = true ↔
      ∃ t, releaseTimes.lookup v = some (some t) ∧ t ≠ ""
        ∧ ∃ ms, parseDate t = some ms ∧ ms ≤ minAge := by
  unfold allowedByAge
  split
  · rename_i s hlk
    by_cases hse : s = ""
    · subst hse
      simp [hlk]
    · rw [if_neg (by simpa using hse)]
      split
      · rename_i t hpd
        simp [hlk, hse, hpd]
      · rename_i hpd
        simp [hlk, hse, hpd]
  · rename_i hna
    simp only [Bool.false_eq_true, false_iff]
    rintro ⟨t, hlk, -⟩
    exact hna t hlk

/-- C1: a non-failed resolution's wanted version is a member of the
age-eligible set — it appears in the catalog minus the synthetic
`modified`/`created` keys, its release time is known, truthy and at most
`now − minAge` minutes — and it satisfies the resolved policy range (it is
the range string verbatim, or the library says it satisfies the range). -/
theorem c1_wanted_age_eligible_and_satisfies (sem : SemverOps)
    (hs : SemverSpec sem) (parseDate : String → Option Int)
    (now minAgeCfg : Int) (releaseTimes : List (String × Option String))
    (desired paddedName version : String)
    (tags : List (String × Option String)) (wi : WantedInfo)
    (h : (findWantedVersion sem
        (versionInfoToAllowedVersions parseDate now minAgeCfg releaseTimes).1
        (versionInfoToAllowedVersions parseDate now minAgeCfg releaseTimes).2
        desired paddedName tags version).1 = some wi) :
    wi.wanted ∈ (versionInfoToAllowedVersions parseDate now minAgeCfg releaseTimes).1
    ∧ wi.wanted ∈ (versionInfoToAllowedVersions parseDate now minAgeCfg releaseTimes).2
    ∧ wi.wanted ≠ "modified" ∧ wi.wanted ≠ "created"
    ∧ (∃ t, releaseTimes.lookup wi.wanted = some (some t) ∧ t ≠ ""
        ∧ ∃ ms, parseDate t = some ms ∧ ms ≤ now - minAgeCfg * 1000 * 60)
    ∧ (wi.wanted = resolveDesiredRange tags desired
        ∨ sem.satisfies wi.wanted (resolveDesiredRange tags desired) = true) := by
  obtain ⟨hw, hne, hnew, hguard⟩ := findWantedVersion_some_inv sem _ _ desired
    paddedName tags version wi h
  have hmem : wi.wanted ∈
      (versionInfoToAllowedVersions parseDate now minAgeCfg releaseTimes).1 :=
    findByRange_mem sem hs _ _ _ hw
  have hmem' := hmem
  simp only [versionInfoToAllowedVersions] at hmem'
  have h2 := List.mem_filter.mp hmem'
  have h3 := List.mem_filter.mp h2.1
  have hflags := h3.2
  simp only [Bool.and_eq_true, Bool.not_eq_true', beq_eq_false_iff_ne] at hflags
  refine ⟨hmem, ?_, hflags.1, hflags.2, ?_, ?_⟩
  · simp only [versionInfoToAllowedVersions]
    exact h2.1
  · exact (allowedByAge_iff parseDate (now - minAgeCfg * 1000 * 60)
      releaseTimes wi.wanted).mp h2.2
  · rcases findByRange_inv sem _ _ _ hw with ⟨_, heq⟩ | ⟨_, hm⟩
    · exact Or.inl heq
    · exact Or.inr (hs.max_sat _ _ _ hm)

/-- The age-eligible list is a sublist of the full version list. -/
theorem allowed_subset_all (parseDate : String → Option Int)
    (now minAgeCfg : Int) (releaseTimes : List (String × Option String)) :
    (versionInfoToAllowedVersions parseDate now minAgeCfg releaseTimes).1 ⊆
      (versionInfoToAllowedVersions parseDate now minAgeCfg releaseTimes).2 := by
  simp only [versionInfoToAllowedVersions]
  exact List.filter_subset' _

/-- C3: the resolver's invariant — whenever a non-failed decision carries
both a wanted and a newest version, wanted is never semver-greater than
newest (`lt newest wanted` is false); and when the age-gated computation
yields no wanted version the decision is failed. -/
theorem c3_wanted_never_above_newest (sem : SemverOps) (hs : SemverSpec sem)
    (parseDate : String → Option Int) (now minAgeCfg : Int)
    (releaseTimes : List (String × Option String))
    (desired paddedName version : String)
    (tags : List (String × Option String)) :
    (∀ wi nv, (findWantedVersion sem
        (versionInfoToAllowedVersions parseDate now minAgeCfg releaseTimes).1
        (versionInfoToAllowedVersions parseDate now minAgeCfg releaseTimes).2
        desired paddedName tags version).1 = some wi →
      wi.newest = some nv → sem.lt nv wi.wanted = false)
    ∧ (findByRange sem
        (versionInfoToAllowedVersions parseDate now minAgeCfg releaseTimes).1
        (resolveDesiredRange tags desired) = none →
      (findWantedVersion sem
        (versionInfoToAllowedVersions parseDate now minAgeCfg releaseTimes).1
        (versionInfoToAllowedVersions parseDate now minAgeCfg releaseTimes).2
        desired paddedName tags version).1 = none) := by
  constructor
  · intro wi nv h hnv
    obtain ⟨hw, hne, hnew, -⟩ := findWantedVersion_some_inv sem _ _ desired
      paddedName tags version wi h
    have hsub := allowed_subset_all parseDate now minAgeCfg releaseTimes
    rcases findByRange_inv sem _ _ _ hw with ⟨hc, heqw⟩ | ⟨hc, hm⟩
    · have hrall : resolveDesiredRange tags desired ∈
          (versionInfoToAllowedVersions parseDate now minAgeCfg releaseTimes).2 :=
        hsub (List.mem_of_elem_eq_true hc)
      have hnr : findByRange sem
          (versionInfoToAllowedVersions parseDate now minAgeCfg releaseTimes).2
          (resolveDesiredRange tags desired) = some (resolveDesiredRange tags desired) := by
        unfold findByRange
        rw [if_pos (List.elem_eq_true_of_mem hrall)]
      rw [hnew] at hnr
      rw [hnr] at hnv
      obtain rfl := (Option.some_injective _ hnv)
      rw [← heqw]
      exact hs.lt_irrefl wi.wanted
    · have hwmem : wi.wanted ∈
          (versionInfoToAllowedVersions parseDate now minAgeCfg releaseTimes).1 :=
        hs.max_mem _ _ _ hm
      have hsat : sem.satisfies wi.wanted (resolveDesiredRange tags desired) = true :=
        hs.max_sat _ _ _ hm
      cases hcall : (versionInfoToAllowedVersions parseDate now minAgeCfg
          releaseTimes).2.contains (resolveDesiredRange tags desired)
      · have hnr : findByRange sem
            (versionInfoToAllowedVersions parseDate now minAgeCfg releaseTimes).2
            (resolveDesiredRange tags desired) =
            sem.maxSatisfying
              (versionInfoToAllowedVersions parseDate now minAgeCfg releaseTimes).2
              (resolveDesiredRange tags desired) := by
          unfold findByRange
          rw [hcall]
          simp
        rw [hnew] at hnr
        rw [hnv] at hnr
        exact hs.max_greatest _ _ nv wi.wanted hnr.symm (hsub hwmem) hsat
      · have hnr : findByRange sem
            (versionInfoToAllowedVersions parseDate now minAgeCfg releaseTimes).2
            (resolveDesiredRange tags desired) = some (resolveDesiredRange tags desired) := by
          unfold findByRange
          rw [if_pos hcall]
        rw [hnew] at hnr
        rw [hnr] at hnv
        obtain rfl := (Option.some_injective _ hnv)
        exact hs.sat_lit wi.wanted _ hsat
  · exact findWantedVersion_none_of_wanted_none sem _ _ desired paddedName
      tags version

/-- For a registry/alias entry whose resolution fails, `updatePackage`
returns the declared version, never engages the selector, and prints an
`X `-prefixed line. -/
theorem updatePackage_registry_resolver_failed (sem : SemverOps)
    (parseDate : String → Option Int) (now minAgeCfg : Int) (cfgAsk : String)
    (overrides : List (String × String)) (tool : String)
    (askSelect : List String → String → String)
    (name paddedName version : String)
    (distTags timeMap : List (String × Option String))
    (hvt : (findVersionType name version).2 = "semver"
      ∨ (findVersionType name version).2 = "alias")
    (hfail : (findWantedVersion sem
        (versionInfoToAllowedVersions parseDate now minAgeCfg timeMap).1
        (versionInfoToAllowedVersions parseDate now minAgeCfg timeMap).2
        ((overrides.lookup name).getD "latest") paddedName distTags
        version).1 = none) :
    (updatePackage sem parseDate now minAgeCfg cfgAsk overrides tool askSelect
        name paddedName version (some ⟨some distTags, some timeMap⟩)).result = version
    ∧ (updatePackage sem parseDate now minAgeCfg cfgAsk overrides tool askSelect
        name paddedName version (some ⟨some distTags, some timeMap⟩)).asked = none
    ∧ ∃ line ∈ (updatePackage sem parseDate now minAgeCfg cfgAsk overrides tool
        askSelect name paddedName version
        (some ⟨some distTags, some timeMap⟩)).logs,
      strStartsWith line "X " = true := by
  have hcond : ((findVersionType name version).2 == "file"
      || (findVersionType name version).2 == "git"
      || (findVersionType name version).2 == "url") = false := by
    rcases hvt with h | h <;> rw [h] <;> decide
  rcases hL : latestTag distTags with _ | latest
  · simp only [updatePackage, hcond, Bool.false_eq_true, if_false, hL]
    refine ⟨trivial, trivial, ?_⟩
    refine ⟨_, List.mem_cons_self _ _, ?_⟩
    simp only [String.append_assoc]
    exact strStartsWith_append "X " _
  · simp only [updatePackage, hcond, Bool.false_eq_true, if_false, hL, hfail]
    exact ⟨trivial, trivial, findWantedVersion_failed_logs sem _ _ _ paddedName
      distTags version hfail⟩

/-- For a registry/alias entry whose catalog data is missing, lacks a
truthy `latest` tag or lacks the release-time map, `updatePackage` returns
the declared version, never engages the selector, and prints an
`X `-prefixed line. -/
theorem updatePackage_bad_info (sem : SemverOps)
    (parseDate : String → Option Int) (now minAgeCfg : Int) (cfgAsk : String)
    (overrides : List (String × String)) (tool : String)
    (askSelect : List String → String → String)
    (name paddedName version : String) (info : Option FetchInfo)
    (hvt : (findVersionType name version).2 = "semver"
      ∨ (findVersionType name version).2 = "alias")
    (hbad : infoBad info = true) :
    (updatePackage sem parseDate now minAgeCfg cfgAsk overrides tool askSelect
        name paddedName version info).result = version
    ∧ (updatePackage sem parseDate now minAgeCfg cfgAsk overrides tool askSelect
        name paddedName version info).asked = none
    ∧ ∃ line ∈ (updatePackage sem parseDate now minAgeCfg cfgAsk overrides tool
        askSelect name paddedName version info).logs,
      strStartsWith line "X " = true := by
  have hcond : ((findVersionType name version).2 == "file"
      || (findVersionType name version).2 == "git"
      || (findVersionType name version).2 == "url") = false := by
    rcases hvt with h | h <;> rw [h] <;> decide
  have hx : ∃ line ∈ ["X " ++ paddedName ++ version ++ " @"
        ++ (overrides.lookup name).getD "latest",
      "X Failed, " ++ tool ++ " request error"],
      strStartsWith line "X " = true := by
    refine ⟨_, List.mem_cons_self _ _, ?_⟩
    simp only [String.append_assoc]
    exact strStartsWith_append "X " _
  rcases info with _ | i
  · simp only [updatePackage, hcond, Bool.false_eq_true, if_false]
    exact ⟨trivial, trivial, hx⟩
  · rcases i with ⟨dt, tm⟩
    rcases dt with _ | distTags
    · simp only [updatePackage, hcond, Bool.false_eq_true, if_false]
      exact ⟨trivial, trivial, hx⟩
    · rcases tm with _ | timeMap
      · simp only [updatePackage, hcond, Bool.false_eq_true, if_false]
        exact ⟨trivial, trivial, hx⟩
      · have hL : latestTag distTags = none := by
          simpa [infoBad, Option.isNone_iff_eq_none] using hbad
        simp only [updatePackage, hcond, Bool.false_eq_true, if_false, hL]
        exact ⟨trivial, trivial, hx⟩

/-- The resolver fails exactly when (a) newest exists, wanted differs from
newest and wanted is absent or semver-below the declared version, or (b)
wanted is absent; consequently a non-failed wanted differing from newest is
never semver-below the declared version. -/
theorem resolver_failed_iff (sem : SemverOps) (hs : SemverSpec sem)
    (parseDate : String → Option Int) (now minAgeCfg : Int)
    (releaseTimes : List (String × Option String))
    (desired paddedName version : String)
    (tags : List (String × Option String))
    (hne : ∀ v ∈ (versionInfoToAllowedVersions parseDate now minAgeCfg
      releaseTimes).2, v ≠ "") :
    ((findWantedVersion sem
        (versionInfoToAllowedVersions parseDate now minAgeCfg releaseTimes).1
        (versionInfoToAllowedVersions parseDate now minAgeCfg releaseTimes).2
        desired paddedName tags version).1 = none ↔
      (findByRange sem
          (versionInfoToAllowedVersions parseDate now minAgeCfg releaseTimes).2
          (resolveDesiredRange tags desired) ≠ none
        ∧ findByRange sem
            (versionInfoToAllowedVersions parseDate now minAgeCfg releaseTimes).1
            (resolveDesiredRange tags desired) ≠ findByRange sem
            (versionInfoToAllowedVersions parseDate now minAgeCfg releaseTimes).2
            (resolveDesiredRange tags desired)
        ∧ (findByRange sem
              (versionInfoToAllowedVersions parseDate now minAgeCfg releaseTimes).1
              (resolveDesiredRange tags desired) = none
            ∨ sem.lt ((findByRange sem
                (versionInfoToAllowedVersions parseDate now minAgeCfg releaseTimes).1
                (resolveDesiredRange tags desired)).getD "") version = true))
      ∨ findByRange sem
          (versionInfoToAllowedVersions parseDate now minAgeCfg releaseTimes).1
          (resolveDesiredRange tags desired) = none)
    ∧ (∀ wi, (findWantedVersion sem
        (versionInfoToAllowedVersions parseDate now minAgeCfg releaseTimes).1
        (versionInfoToAllowedVersions parseDate now minAgeCfg releaseTimes).2
        desired paddedName tags version).1 = some wi →
      some wi.wanted ≠ wi.newest → sem.lt wi.wanted version = false) := by
  have hsub := allowed_subset_all parseDate now minAgeCfg releaseTimes
  constructor
  · rcases hw : findByRange sem
        (versionInfoToAllowedVersions parseDate now minAgeCfg releaseTimes).1
        (resolveDesiredRange tags desired) with _ | wv
    · constructor
      · intro _
        exact Or.inr rfl
      · intro _
        exact findWantedVersion_none_of_wanted_none sem _ _ desired paddedName
          tags version hw
    · have hwv_ne : wv ≠ "" :=
        hne wv (hsub (findByRange_mem sem hs _ _ _ hw))
      have hnn := newest_isSome_of_wanted_isSome sem hs _ _
        (resolveDesiredRange tags desired) hsub wv hw
      obtain ⟨nv, hn⟩ := Option.ne_none_iff_exists'.mp hnn
      have hnv_ne : nv ≠ "" := hne nv (findByRange_mem sem hs _ _ _ hn)
      simp only [findWantedVersion, hw, hn]
      by_cases hbe : wv = nv <;> by_cases hlt : sem.lt wv version = true <;>
        simp [isTruthy, hwv_ne, hnv_ne, hbe, hlt]
  · intro wi hsome hdiff
    obtain ⟨hw', -, hnew', hguard⟩ := findWantedVersion_some_inv sem _ _
      desired paddedName tags version wi hsome
    have hnn := newest_isSome_of_wanted_isSome sem hs _ _
      (resolveDesiredRange tags desired) hsub wi.wanted hw'
    rw [hnew'] at hnn
    obtain ⟨nv, hn⟩ := Option.ne_none_iff_exists'.mp hnn
    have hnv_ne : nv ≠ "" := by
      apply hne nv
      apply findByRange_mem sem hs _ _ nv
      rw [hnew', hn]
    apply hguard _ (Ne.symm hdiff)
    rw [hn]
    simp [isTruthy, hnv_ne]

/-- C2: over catalogs whose version keys are non-empty strings, resolution
fails (returning the failed decision) exactly when (a) newest exists,
wanted differs from newest, and wanted is absent or semver-older than the
declared version, or (b) wanted is absent; consequently a non-failed wanted
that differs from newest is never semver-older than the declared version;
and for a registry or aliased-registry entry a failed resolution makes
`updatePackage` keep the declared version. -/
theorem c2_blocking_rule_no_silent_downgrade :
    (∀ (sem : SemverOps), SemverSpec sem →
      ∀ (parseDate : String → Option Int) (now minAgeCfg : Int)
        (releaseTimes : List (String × Option String))
        (desired paddedName version : String)
        (tags : List (String × Option String)),
      (∀ v ∈ (versionInfoToAllowedVersions parseDate now minAgeCfg
          releaseTimes).2, v ≠ "") →
      ((findWantedVersion sem
          (versionInfoToAllowedVersions parseDate now minAgeCfg releaseTimes).1
          (versionInfoToAllowedVersions parseDate now minAgeCfg releaseTimes).2
          desired paddedName tags version).1 = none ↔
        (findByRange sem
            (versionInfoToAllowedVersions parseDate now minAgeCfg releaseTimes).2
            (resolveDesiredRange tags desired) ≠ none
          ∧ findByRange sem
              (versionInfoToAllowedVersions parseDate now minAgeCfg releaseTimes).1
              (resolveDesiredRange tags desired) ≠ findByRange sem
              (versionInfoToAllowedVersions parseDate now minAgeCfg releaseTimes).2
              (resolveDesiredRange tags desired)
          ∧ (findByRange sem
                (versionInfoToAllowedVersions parseDate now minAgeCfg releaseTimes).1
                (resolveDesiredRange tags desired) = none
              ∨ sem.lt ((findByRange sem
                  (versionInfoToAllowedVersions parseDate now minAgeCfg releaseTimes).1
                  (resolveDesiredRange tags desired)).getD "") version = true))
        ∨ findByRange sem
            (versionInfoToAllowedVersions parseDate now minAgeCfg releaseTimes).1
            (resolveDesiredRange tags desired) = none)
      ∧ (∀ wi, (findWantedVersion sem
          (versionInfoToAllowedVersions parseDate now minAgeCfg releaseTimes).1
          (versionInfoToAllowedVersions parseDate now minAgeCfg releaseTimes).2
          desired paddedName tags version).1 = some wi →
        some wi.wanted ≠ wi.newest → sem.lt wi.wanted version = false))
    ∧ (∀ (sem : SemverOps) (parseDate : String → Option Int)
        (now minAgeCfg : Int) (cfgAsk : String)
        (overrides : List (String × String)) (tool : String)
        (askSelect : List String → String → String)
        (name paddedName version : String)
        (distTags timeMap : List (String × Option String)),
      ((findVersionType name version).2 = "semver"
        ∨ (findVersionType name version).2 = "alias") →
      (findWantedVersion sem
          (versionInfoToAllowedVersions parseDate now minAgeCfg timeMap).1
          (versionInfoToAllowedVersions parseDate now minAgeCfg timeMap).2
          ((overrides.lookup name).getD "latest") paddedName distTags
          version).1 = none →
      (updatePackage sem parseDate now minAgeCfg cfgAsk overrides tool
          askSelect name paddedName version
          (some ⟨some distTags, some timeMap⟩)).result = version) := by
  constructor
  · intro sem hs parseDate now minAgeCfg releaseTimes desired paddedName
      version tags hne
    exact resolver_failed_iff sem hs parseDate now minAgeCfg releaseTimes
      desired paddedName version tags hne
  · intro sem parseDate now minAgeCfg cfgAsk overrides tool askSelect name
      paddedName version distTags timeMap hvt hfail
    exact (updatePackage_registry_resolver_failed sem parseDate now minAgeCfg
      cfgAsk overrides tool askSelect name paddedName version distTags
      timeMap hvt hfail).1

/-- Propositional form of the lexicographic triple order. -/
theorem tripleLt_iff (a b : Nat × Nat × Nat) :
    tripleLt a b = true ↔
      a.1 < b.1 ∨ (a.1 = b.1 ∧ (a.2.1 < b.2.1
        ∨ (a.2.1 = b.2.1 ∧ a.2.2 < b.2.2))) := by
  unfold tripleLt
  simp [Bool.or_eq_true, Bool.and_eq_true, beq_iff_eq, decide_eq_true_eq]

/-- The triple order is irreflexive. -/
theorem tripleLt_irrefl (a : Nat × Nat × Nat) : tripleLt a a = false := by
  unfold tripleLt
  simp

/-- From `m < x` and `¬ v < x` conclude `¬ v < m`. -/
theorem tripleLt_shift (m x v : Nat × Nat × Nat)
    (h1 : tripleLt m x = true) (h2 : tripleLt v x = false) :
    tripleLt v m = false := by
  rw [tripleLt_iff] at h1
  rw [← Bool.not_eq_true, tripleLt_iff] at h2 ⊢
  omega

/-- Non-strict comparison is transitive: `¬ v < m` and `¬ m < x` give
`¬ v < x`. -/
theorem tripleLt_not_trans (v m x : Nat × Nat × Nat)
    (h1 : tripleLt v m = false) (h2 : tripleLt m x = false) :
    tripleLt v x = false := by
  rw [← Bool.not_eq_true, tripleLt_iff] at h1 h2 ⊢
  omega

/-- A version satisfying a mini range parses as a triple. -/
theorem miniSatisfies_parses (v r : String)
    (h : miniSatisfies v r = true) :
    ∃ pv, parseSemTriple v = some pv := by
  unfold miniSatisfies at h
  rcases hr : parseMiniRange r with _ | rng
  · rw [hr] at h
    simp at h
  · rcases hv : parseSemTriple v with _ | pv
    · rw [hr, hv] at h
      rcases rng <;> simp at h
    · exact ⟨pv, rfl⟩

/-- On parsed versions, `miniLt` is the triple order. -/
theorem miniLt_eq_tripleLt (x y : String) (a b : Nat × Nat × Nat)
    (hx : parseSemTriple x = some a) (hy : parseSemTriple y = some b) :
    miniLt x y = tripleLt a b := by
  unfold miniLt
  rw [hx, hy]

/-- `miniLt` is irreflexive. -/
theorem miniLt_irrefl (v : String) : miniLt v v = false := by
  unfold miniLt
  rcases parseSemTriple v with _ | a
  · rfl
  · exact tripleLt_irrefl a

/-- `tripleLt_shift` lifted to satisfying version strings. -/
theorem miniLt_shift_sat (r m x v : String)
    (hm : miniSatisfies m r = true) (hx : miniSatisfies x r = true)
    (hv : miniSatisfies v r = true)
    (h1 : miniLt m x = true) (h2 : miniLt v x = false) :
    miniLt v m = false := by
  obtain ⟨pm, hpm⟩ := miniSatisfies_parses m r hm
  obtain ⟨px, hpx⟩ := miniSatisfies_parses x r hx
  obtain ⟨pv, hpv⟩ := miniSatisfies_parses v r hv
  rw [miniLt_eq_tripleLt m x pm px hpm hpx] at h1
  rw [miniLt_eq_tripleLt v x pv px hpv hpx] at h2
  rw [miniLt_eq_tripleLt v m pv pm hpv hpm]
  exact tripleLt_shift pm px pv h1 h2

/-- `tripleLt_not_trans` lifted to satisfying version strings. -/
theorem miniLt_not_trans_sat (r v m x : String)
    (hv : miniSatisfies v r = true) (hm : miniSatisfies m r = true)
    (hx : miniSatisfies x r = true)
    (h1 : miniLt v m = false) (h2 : miniLt m x = false) :
    miniLt v x = false := by
  obtain ⟨pv, hpv⟩ := miniSatisfies_parses v r hv
  obtain ⟨pm, hpm⟩ := miniSatisfies_parses m r hm
  obtain ⟨px, hpx⟩ := miniSatisfies_parses x r hx
  rw [miniLt_eq_tripleLt v m pv pm hpv hpm] at h1
  rw [miniLt_eq_tripleLt m x pm px hpm hpx] at h2
  rw [miniLt_eq_tripleLt v x pv px hpv hpx]
  exact tripleLt_not_trans pv pm px h1 h2

/-- The maximum scan returns nothing only when nothing satisfies. -/
theorem miniFold_none (r : String) :
    ∀ (vs : List String) (acc : Option String),
      vs.foldl (miniMaxStep r) acc = none →
      acc = none ∧ ∀ u ∈ vs, miniSatisfies u r = false := by
  intro vs
  induction vs with
  | nil =>
    intro acc h
    exact ⟨h, by simp⟩
  | cons x xs ih =>
    intro acc h
    rw [List.foldl_cons] at h
    obtain ⟨hstep, hxs⟩ := ih (miniMaxStep r acc x) h
    rcases acc with _ | m
    · simp only [miniMaxStep] at hstep
      by_cases hsx : miniSatisfies x r = true
      · rw [if_pos hsx] at hstep
        simp at hstep
      · refine ⟨rfl, ?_⟩
        intro u hu
        rcases hu with _ | hu
        · exact Bool.of_not_eq_true hsx
        · exact hxs u (by assumption)
    · simp only [miniMaxStep] at hstep
      split at hstep <;> simp at hstep

/-- The maximum scan returns the accumulator or a list member. -/
theorem miniFold_mem (r : String) :
    ∀ (vs : List String) (acc : Option String) (v : String),
      vs.foldl (miniMaxStep r) acc = some v →
      acc = some v ∨ v ∈ vs := by
  intro vs
  induction vs with
  | nil =>
    intro acc v h
    exact Or.inl h
  | cons x xs ih =>
    intro acc v h
    rw [List.foldl_cons] at h
    rcases ih (miniMaxStep r acc x) v h with hstep | hmem
    · rcases acc with _ | m
      · simp only [miniMaxStep] at hstep
        by_cases hsx : miniSatisfies x r = true
        · rw [if_pos hsx] at hstep
          exact Or.inr (by simp [Option.some_injective _ hstep])
        · rw [if_neg hsx] at hstep
          simp at hstep
      · simp only [miniMaxStep] at hstep
        by_cases hc : (miniSatisfies x r && miniLt m x) = true
        · rw [if_pos hc] at hstep
          exact Or.inr (by simp [Option.some_injective _ hstep])
        · rw [if_neg hc] at hstep
          exact Or.inl hstep
    · exact Or.inr (List.mem_cons_of_mem x hmem)

/-- The maximum scan returns a satisfying version. -/
theorem miniFold_sat (r : String) :
    ∀ (vs : List String) (acc : Option String) (v : String),
      (∀ m, acc = some m → miniSatisfies m r = true) →
      vs.foldl (miniMaxStep r) acc = some v →
      miniSatisfies v r = true := by
  intro vs
  induction vs with
  | nil =>
    intro acc v hacc h
    exact hacc v h
  | cons x xs ih =>
    intro acc v hacc h
    rw [List.foldl_cons] at h
    refine ih (miniMaxStep r acc x) v ?_ h
    intro m hm
    rcases acc with _ | m0
    · simp only [miniMaxStep] at hm
      by_cases hsx : miniSatisfies x r = true
      · rw [if_pos hsx] at hm
        obtain rfl := Option.some_injective _ hm
        exact hsx
      · rw [if_neg hsx] at hm
        simp at hm
    · simp only [miniMaxStep] at hm
      by_cases hc : (miniSatisfies x r && miniLt m0 x) = true
      · rw [if_pos hc] at hm
        obtain rfl := Option.some_injective _ hm
        exact (Bool.and_eq_true _ _ |>.mp hc).1
      · rw [if_neg hc] at hm
        obtain rfl := Option.some_injective _ hm
        exact hacc _ rfl

/-- Stepping the scan preserves the accumulator-satisfies invariant. -/
theorem miniMaxStep_sat_inv (r : String) (acc : Option String) (x m' : String)
    (hacc : ∀ m, acc = some m → miniSatisfies m r = true)
    (h : miniMaxStep r acc x = some m') : miniSatisfies m' r = true := by
  rcases acc with _ | m
  · simp only [miniMaxStep] at h
    by_cases hsx : miniSatisfies x r = true
    · rw [if_pos hsx] at h
      obtain rfl := Option.some_injective _ h
      exact hsx
    · rw [if_neg hsx] at h
      simp at h
  · simp only [miniMaxStep] at h
    by_cases hc : (miniSatisfies x r && miniLt m x) = true
    · rw [if_pos hc] at h
      obtain rfl := Option.some_injective _ h
      exact (Bool.and_eq_true _ _ |>.mp hc).1
    · rw [if_neg hc] at h
      obtain rfl := Option.some_injective _ h
      exact hacc _ rfl

/-- The scan's result is never below its starting accumulator. -/
theorem miniFold_ge_acc (r : String) :
    ∀ (vs : List String) (m v : String),
      miniSatisfies m r = true →
      vs.foldl (miniMaxStep r) (some m) = some v →
      miniLt v m = false := by
  intro vs
  induction vs with
  | nil =>
    intro m v hm h
    obtain rfl := Option.some_injective _ h
    exact miniLt_irrefl _
  | cons x xs ih =>
    intro m v hm h
    rw [List.foldl_cons] at h
    simp only [miniMaxStep] at h
    by_cases hc : (miniSatisfies x r && miniLt m x) = true
    · rw [if_pos hc] at h
      obtain ⟨hsx, hltmx⟩ := Bool.and_eq_true _ _ |>.mp hc
      have hvx := ih x v hsx h
      have hv : miniSatisfies v r = true :=
        miniFold_sat r xs (some x) v (fun m' hm' =>
          (Option.some_injective _ hm') ▸ hsx) h
      exact miniLt_shift_sat r m x v hm hsx hv hltmx hvx
    · rw [if_neg hc] at h
      exact ih m v hm h

/-- The scan's result is never below any satisfying list member. -/
theorem miniFold_greatest (r : String) :
    ∀ (vs : List String) (acc : Option String) (v u : String),
      (∀ m, acc = some m → miniSatisfies m r = true) →
      vs.foldl (miniMaxStep r) acc = some v →
      u ∈ vs → miniSatisfies u r = true →
      miniLt v u = false := by
  intro vs
  induction vs with
  | nil =>
    intro acc v u hacc h hu hsatu
    simp at hu
  | cons x xs ih =>
    intro acc v u hacc h hu hsatu
    rw [List.foldl_cons] at h
    rcases List.mem_cons.mp hu with rfl | humem
    · have hv : miniSatisfies v r = true :=
        miniFold_sat r xs (miniMaxStep r acc u) v
          (fun m' hm' => miniMaxStep_sat_inv r acc u m' hacc hm') h
      rcases acc with _ | m
      · simp only [miniMaxStep, if_pos hsatu] at h
        exact miniFold_ge_acc r xs u v hsatu h
      · have hm : miniSatisfies m r = true := hacc m rfl
        by_cases hlt : miniLt m u = true
        · simp only [miniMaxStep, hsatu, hlt, Bool.and_self, if_pos] at h
          exact miniFold_ge_acc r xs u v hsatu h
        · have hcf : (miniSatisfies u r && miniLt m u) = false := by
            rw [Bool.of_not_eq_true hlt]
            simp
          simp only [miniMaxStep, hcf, Bool.false_eq_true, if_false] at h
          have hvm := miniFold_ge_acc r xs m v hm h
          exact miniLt_not_trans_sat r v m u hv hm hsatu hvm
            (Bool.of_not_eq_true hlt)
    · exact ih (miniMaxStep r acc x) v u
        (fun m' hm' => miniMaxStep_sat_inv r acc x m' hacc hm') h humem hsatu

/-- Splitting never yields the empty list of fields. -/
theorem splitCharList_ne_nil (c : Char) (l : List Char) :
    splitCharList c l ≠ [] := by
  cases l with
  | nil => simp [splitCharList]
  | cons x xs =>
    unfold splitCharList
    by_cases hx : x = c
    · simp [hx]
    · rw [if_neg hx]
      split <;> simp

/-- Splitting a list whose head is not the separator puts that head at the
front of the first field. -/
theorem splitCharList_head_of_ne (c x : Char) (xs : List Char)
    (hx : ¬ x = c) :
    ∃ h t, splitCharList c (x :: xs) = (x :: h) :: t := by
  unfold splitCharList
  rw [if_neg hx]
  rcases hsp : splitCharList c xs with _ | ⟨h, t⟩
  · exact absurd hsp (splitCharList_ne_nil c xs)
  · exact ⟨h, t, rfl⟩

/-- A string carrying the `<=` range marker never parses as a version. -/
theorem parseSemTriple_of_le_marker (r : String)
    (h : strStartsWith r "<=" = true) : parseSemTriple r = none := by
  have hpre : ∃ t, r.data = '<' :: '=' :: t := by
    unfold strStartsWith at h
    rw [List.isPrefixOf_iff_prefix] at h
    obtain ⟨t, ht⟩ := h
    exact ⟨t, by simpa using ht.symm⟩
  obtain ⟨t, ht⟩ := hpre
  unfold parseSemTriple strSplitOnChar
  rw [ht]
  obtain ⟨h1, t1, hsp⟩ := splitCharList_head_of_ne '.' '<' ('=' :: t)
    (by decide)
  rw [hsp]
  have hnum : parseNatStr (String.mk ('<' :: h1)) = none := by
    unfold parseNatStr
    simp [digitsToNatAux]
  cases t1 with
  | nil => rfl
  | cons b t2 =>
    cases t2 with
    | nil => rfl
    | cons c2 t3 =>
      cases t3 with
      | nil =>
        simp only [List.map]
        rw [show String.mk ('<' :: h1) = ⟨'<' :: h1⟩ from rfl]
        simp [hnum]
      | cons d t4 => rfl

/-- The literal-range fact for the mini instance: a version satisfying a
range is never strictly above the range string read as a version. -/
theorem miniSat_lit (v r : String) (h : miniSatisfies v r = true) :
    miniLt r v = false := by
  unfold miniSatisfies at h
  rcases hr : parseMiniRange r with _ | rng
  · rw [hr] at h
    simp at h
  · rw [hr] at h
    rcases hv : parseSemTriple v with _ | pv
    · rw [hv] at h
      rcases rng <;> simp at h
    · rw [hv] at h
      rcases rng with t | t
      · have hpv : pv = t := by simpa using h
        unfold parseMiniRange at hr
        by_cases hsw : strStartsWith r "<=" = true
        · rw [if_pos hsw] at hr
          rcases parseSemTriple (strDrop r 2) with _ | u
          · simp at hr
          · simp at hr
        · rw [if_neg hsw] at hr
          rcases hpr : parseSemTriple r with _ | u
          · rw [hpr] at hr
            simp at hr
          · rw [hpr] at hr
            have hut : u = t := by simpa using hr
            unfold miniLt
            rw [hpr, hv, hpv, hut]
            exact tripleLt_irrefl t
      · by_cases hsw : strStartsWith r "<=" = true
        · simp [miniLt, parseSemTriple_of_le_marker r hsw]
        · unfold parseMiniRange at hr
          rw [if_neg hsw] at hr
          rcases hpr : parseSemTriple r with _ | u
          · rw [hpr] at hr
            simp at hr
          · rw [hpr] at hr
            simp at hr

/-- The executable mini instance satisfies the behavioural facts assumed of
the npm semver primitives. -/
theorem miniSemverSpec : SemverSpec miniSemver := by
  constructor
  · intro vs r v h
    rcases miniFold_mem r vs none v h with hn | hm
    · simp at hn
    · exact hm
  · intro vs r v h
    exact miniFold_sat r vs none v (by simp) h
  · intro vs r v hv hsat hnone
    have hf := (miniFold_none r vs none hnone).2 v hv
    have hsat' : miniSatisfies v r = true := hsat
    rw [hsat'] at hf
    simp at hf
  · intro vs r v u h hu hsat
    exact miniFold_greatest r vs none v u (by simp) h hu hsat
  · exact miniLt_irrefl
  · exact miniSat_lit

/-- The selector's greedy scan succeeds exactly when the remaining query
characters occur in order (not necessarily contiguously) in the scanned
string. -/
theorem fuzzyStep_iff (q : List Char) :
    ∀ (s : List Char) (i : Nat), i < q.length →
      (fuzzyStep q q.length s i = true ↔ List.Sublist (q.drop i) s) := by
  intro s
  induction s with
  | nil =>
    intro i hi
    constructor
    · intro h
      simp [fuzzyStep] at h
    · intro h
      rw [List.sublist_nil] at h
      have := List.drop_eq_nil_iff.mp h
      omega
  | cons c rest ih =>
    intro i hi
    have hq : q[i]? = some q[i] := List.getElem?_eq_getElem hi
    have hdrop : q.drop i = q[i] :: q.drop (i + 1) :=
      List.drop_eq_getElem_cons hi
    by_cases hc : c = q[i]
    · by_cases hend : i + 1 = q.length
      · have hstep : fuzzyStep q q.length (c :: rest) i = true := by
          simp only [fuzzyStep, hq, hc, if_pos, hend]
        rw [hstep]
        simp only [true_iff]
        rw [hdrop, List.drop_eq_nil_of_le (by omega : q.length ≤ i + 1)]
        rw [← hc]
        exact List.cons_sublist_cons.mpr (List.nil_sublist rest)
      · have hstep : fuzzyStep q q.length (c :: rest) i =
            fuzzyStep q q.length rest (i + 1) := by
          simp only [fuzzyStep, hq, hc, if_pos, hend]
          simp [hend]
        rw [hstep, ih (i + 1) (by omega), hdrop, ← hc]
        exact (List.cons_sublist_cons).symm
    · have hstep : fuzzyStep q q.length (c :: rest) i =
          fuzzyStep q q.length rest i := by
        simp only [fuzzyStep, hq, if_neg hc]
        simp [Nat.ne_of_lt hi]
      rw [hstep, ih i hi]
      constructor
      · intro h
        exact List.Sublist.cons c h
      · intro h
        rw [hdrop] at h ⊢
        cases h with
        | cons _ h' => exact h'
        | cons₂ _ h' => exact absurd rfl hc

/-- The selector's per-option predicate holds exactly when the query is
empty or its lowercased characters are an in-order subsequence of the
lowercased option. -/
theorem matchesQuery_iff (query s : String) :
    matchesQuery query s = true ↔
      (query = "" ∨ List.Sublist (lowerChars query) (lowerChars s)) := by
  unfold matchesQuery
  by_cases hq : query = ""
  · subst hq
    rw [if_pos (by rfl)]
    exact iff_of_true rfl (Or.inl rfl)
  · rw [if_neg (by simpa using hq)]
    have hdata : query.data ≠ [] := by
      intro hd
      exact hq (String.ext hd)
    have hlen : query.length = (lowerChars query).length := by
      unfold lowerChars
      rw [List.length_map]
      rfl
    have hpos : 0 < (lowerChars query).length := by
      simp only [lowerChars, List.length_map]
      exact List.length_pos.mpr hdata
    rw [hlen, fuzzyStep_iff (lowerChars query) (lowerChars s) 0 hpos]
    simp [hq]

/-- C8: the selector's filter keeps, in original order, exactly the options
for which the query is empty or the query's characters occur
case-insensitively as an in-order (not necessarily contiguous)
subsequence; in particular query `1x` matches `1.2.x-beta` but not
`2.1.0`, and the empty query keeps everything. -/
theorem c8_fuzzy_filter (options : List String) (query : String) :
    filterOptions options query = options.filter (fun s => matchesQuery query s)
    ∧ (∀ s, matchesQuery query s = true ↔
        (query = "" ∨ List.Sublist (lowerChars query) (lowerChars s)))
    ∧ filterOptions ["1.2.x-beta", "2.1.0"] "1x" = ["1.2.x-beta"]
    ∧ filterOptions options "" = options := by
  refine ⟨rfl, fun s => matchesQuery_iff query s, by decide, ?_⟩
  unfold filterOptions
  refine List.filter_eq_self.mpr ?_
  intro a _
  rw [matchesQuery]
  rw [if_pos (by rfl)]

/-- A string whose first character is not `!` does not start with the
age-block marker. -/
theorem not_startsWith_bang (s : String)
    (h : ∀ cs, s.data ≠ '!' :: cs) : strStartsWith s "! " = false := by
  unfold strStartsWith
  cases hd : s.data with
  | nil => rfl
  | cons c cs =>
    have hc : ('!' == c) = false := by
      rw [beq_eq_false_iff_ne]
      intro he
      exact h cs (by rw [hd, ← he])
    show List.isPrefixOf ('!' :: ' ' :: []) (c :: cs) = false
    simp [List.isPrefixOf, hc]

/-- With a cleared (null) newest value, the printed line never carries the
age-block `! ` prefix. -/
theorem logResultToUser_no_bang (aliasT : Option String)
    (desired latest paddedName version wanted : String) :
    strStartsWith
      (logResultToUser aliasT desired latest none paddedName version wanted).line
      "! " = false := by
  unfold logResultToUser
  simp only [isTruthy, Bool.false_and, Bool.false_eq_true, if_false]
  by_cases h2 : (desired == "latest") = true <;>
    by_cases h3 : (wanted == version) = true <;>
      simp only [h2, h3, Bool.not_true, Bool.not_false, Bool.false_eq_true,
        if_false, if_true] <;>
    refine not_startsWith_bang _ ?_ <;>
    intro cs hcontra <;>
    simp [String.data_append] at hcontra

/-- The last element of a list extended by two entries. -/
theorem getLast_append_pair (l : List String) (a b : String) :
    (l ++ [a, b]).getLast? = some b := by
  rw [show l ++ [a, b] = (l ++ [a]) ++ [b] by simp]
  exact List.getLast?_concat _

/-- C10: when the ask gate engages the selector, the option list handed to
it is the full age-unfiltered version list together with the resolver's
wanted as initial selection, the returned selection becomes the stored
result verbatim (no age or policy re-check), and — newest being cleared —
the final printed line never starts with the age-block `! ` marker. -/
theorem c10_ask_full_list_verbatim_commit (sem : SemverOps)
    (parseDate : String → Option Int) (now minAgeCfg : Int) (cfgAsk : String)
    (overrides : List (String × String)) (tool : String)
    (askSelect : List String → String → String)
    (name paddedName version latest : String)
    (distTags timeMap : List (String × Option String)) (wi : WantedInfo)
    (hvt : (findVersionType name version).2 = "semver"
      ∨ (findVersionType name version).2 = "alias")
    (hl : latestTag distTags = some latest)
    (hwi : (findWantedVersion sem
        (versionInfoToAllowedVersions parseDate now minAgeCfg timeMap).1
        (versionInfoToAllowedVersions parseDate now minAgeCfg timeMap).2
        ((overrides.lookup name).getD "latest") paddedName distTags
        version).1 = some wi)
    (hask : shouldAskVersion cfgAsk (versionStatus version wi.wanted latest)
      = true) :
    (updatePackage sem parseDate now minAgeCfg cfgAsk overrides tool askSelect
        name paddedName version (some ⟨some distTags, some timeMap⟩)).result =
      askSelect (versionInfoToAllowedVersions parseDate now minAgeCfg timeMap).2
        wi.wanted
    ∧ (updatePackage sem parseDate now minAgeCfg cfgAsk overrides tool askSelect
        name paddedName version (some ⟨some distTags, some timeMap⟩)).asked =
      some ((versionInfoToAllowedVersions parseDate now minAgeCfg timeMap).2,
        wi.wanted)
    ∧ ∃ line, (updatePackage sem parseDate now minAgeCfg cfgAsk overrides tool
        askSelect name paddedName version
        (some ⟨some distTags, some timeMap⟩)).logs.getLast? = some line
      ∧ strStartsWith line "! " = false := by
  have hcond : ((findVersionType name version).2 == "file"
      || (findVersionType name version).2 == "git"
      || (findVersionType name version).2 == "url") = false := by
    rcases hvt with h | h <;> rw [h] <;> decide
  simp only [updatePackage, hcond, Bool.false_eq_true, if_false, hl, hwi,
    hask, if_true]
  refine ⟨trivial, trivial, ?_⟩
  refine ⟨_, getLast_append_pair _ _ _, ?_⟩
  exact logResultToUser_no_bang _ _ _ _ _ _

/-- C9: for registry or aliased-registry entries, a failed catalog query
(or data lacking a truthy `latest` tag or a release-time map) and a
resolution yielding no satisfying version both leave the declared version
unchanged and print an `X `-prefixed line; and the update loop processes
every entry independently, so one entry's outcome never blocks the rest. -/
theorem c9_per_package_failure_nonfatal :
    (∀ (sem : SemverOps) (parseDate : String → Option Int)
        (now minAgeCfg : Int) (cfgAsk : String)
        (overrides : List (String × String)) (tool : String)
        (askSelect : List String → String → String)
        (name paddedName version : String) (info : Option FetchInfo),
      ((findVersionType name version).2 = "semver"
        ∨ (findVersionType name version).2 = "alias") →
      infoBad info = true →
      (updatePackage sem parseDate now minAgeCfg cfgAsk overrides tool
          askSelect name paddedName version info).result = version
      ∧ ∃ line ∈ (updatePackage sem parseDate now minAgeCfg cfgAsk overrides
          tool askSelect name paddedName version info).logs,
        strStartsWith line "X " = true)
    ∧ (∀ (sem : SemverOps) (parseDate : String → Option Int)
        (now minAgeCfg : Int) (cfgAsk : String)
        (overrides : List (String × String)) (tool : String)
        (askSelect : List String → String → String)
        (name paddedName version : String)
        (distTags timeMap : List (String × Option String)),
      ((findVersionType name version).2 = "semver"
        ∨ (findVersionType name version).2 = "alias") →
      (findWantedVersion sem
          (versionInfoToAllowedVersions parseDate now minAgeCfg timeMap).1
          (versionInfoToAllowedVersions parseDate now minAgeCfg timeMap).2
          ((overrides.lookup name).getD "latest") paddedName distTags
          version).1 = none →
      (updatePackage sem parseDate now minAgeCfg cfgAsk overrides tool
          askSelect name paddedName version
          (some ⟨some distTags, some timeMap⟩)).result = version
      ∧ ∃ line ∈ (updatePackage sem parseDate now minAgeCfg cfgAsk overrides
          tool askSelect name paddedName version
          (some ⟨some distTags, some timeMap⟩)).logs,
        strStartsWith line "X " = true)
    ∧ (∀ (sem : SemverOps) (parseDate : String → Option Int)
        (now minAgeCfg : Int) (cfgAsk : String)
        (overrides : List (String × String)) (tool : String)
        (askSelect : List String → String → String)
        (padOf : String → String) (fetch : String → Option FetchInfo)
        (pre post : List (String × String)) (e : String × String),
      updateAll sem parseDate now minAgeCfg cfgAsk overrides tool askSelect
          padOf fetch (pre ++ e :: post) =
        updateAll sem parseDate now minAgeCfg cfgAsk overrides tool askSelect
          padOf fetch pre
        ++ updateAll sem parseDate now minAgeCfg cfgAsk overrides tool
          askSelect padOf fetch [e]
        ++ updateAll sem parseDate now minAgeCfg cfgAsk overrides tool
          askSelect padOf fetch post) := by
  refine ⟨?_, ?_, ?_⟩
  · intro sem parseDate now minAgeCfg cfgAsk overrides tool askSelect name
      paddedName version info hvt hbad
    obtain ⟨h1, -, h3⟩ := updatePackage_bad_info sem parseDate now minAgeCfg
      cfgAsk overrides tool askSelect name paddedName version info hvt hbad
    exact ⟨h1, h3⟩
  · intro sem parseDate now minAgeCfg cfgAsk overrides tool askSelect name
      paddedName version distTags timeMap hvt hfail
    obtain ⟨h1, -, h3⟩ := updatePackage_registry_resolver_failed sem parseDate
      now minAgeCfg cfgAsk overrides tool askSelect name paddedName version
      distTags timeMap hvt hfail
    exact ⟨h1, h3⟩
  · intro sem parseDate now minAgeCfg cfgAsk overrides tool askSelect padOf
      fetch pre post e
    simp [updateAll]

/-- Concrete instance of C1: in a catalog whose `latest` tag is `2.0.0` and
whose versions are all old enough, the resolved wanted version `2.0.0` is
age-eligible and satisfies the rewritten range. -/
theorem c1_witness :
    ("2.0.0" : String) ∈ (versionInfoToAllowedVersions parseDateNum 1000000 0
      [("1.0.0", some "100"), ("2.0.0", some "200"),
        ("modified", some "300")]).1
    ∧ (("2.0.0" : String) = resolveDesiredRange [("latest", some "2.0.0")] "latest"
      ∨ miniSemver.satisfies "2.0.0"
          (resolveDesiredRange [("latest", some "2.0.0")] "latest") = true) :=
  ⟨(c1_wanted_age_eligible_and_satisfies miniSemver miniSemverSpec parseDateNum
      1000000 0
      [("1.0.0", some "100"), ("2.0.0", some "200"), ("modified", some "300")]
      "latest" "p " "1.0.0" [("latest", some "2.0.0")]
      ⟨some "2.0.0", "2.0.0"⟩ (by decide)).1,
   (c1_wanted_age_eligible_and_satisfies miniSemver miniSemverSpec parseDateNum
      1000000 0
      [("1.0.0", some "100"), ("2.0.0", some "200"), ("modified", some "300")]
      "latest" "p " "1.0.0" [("latest", some "2.0.0")]
      ⟨some "2.0.0", "2.0.0"⟩ (by decide)).2.2.2.2.2⟩

/-- Concrete instance of C2: with a huge minimum age nothing is
age-eligible, so resolution fails by the claimed condition (wanted absent)
and `updatePackage` keeps the declared version. -/
theorem c2_witness :
    (findWantedVersion miniSemver
      (versionInfoToAllowedVersions parseDateNum 1000000 1000000
        [("1.0.0", some "100"), ("2.0.0", some "200"),
          ("modified", some "300")]).1
      (versionInfoToAllowedVersions parseDateNum 1000000 1000000
        [("1.0.0", some "100"), ("2.0.0", some "200"),
          ("modified", some "300")]).2
      "latest" "p " [("latest", some "2.0.0")] "1.0.0").1 = none
    ∧ (updatePackage miniSemver parseDateNum 1000000 1000000 "none" [] "npm"
        (fun _ w => w) "pkg" "p " "1.0.0"
        (some ⟨some [("latest", some "2.0.0")],
          some [("1.0.0", some "100"), ("2.0.0", some "200"),
            ("modified", some "300")]⟩)).result = "1.0.0" :=
  ⟨((c2_blocking_rule_no_silent_downgrade.1 miniSemver miniSemverSpec
      parseDateNum 1000000 1000000
      [("1.0.0", some "100"), ("2.0.0", some "200"), ("modified", some "300")]
      "latest" "p " "1.0.0" [("latest", some "2.0.0")] (by decide)).1).mpr
      (Or.inr (by decide)),
   c2_blocking_rule_no_silent_downgrade.2 miniSemver parseDateNum 1000000
      1000000 "none" [] "npm" (fun _ w => w) "pkg" "p " "1.0.0"
      [("latest", some "2.0.0")]
      [("1.0.0", some "100"), ("2.0.0", some "200"), ("modified", some "300")]
      (Or.inl (by decide)) (by decide)⟩

/-- Concrete instance of C3: with `2.0.0` too new, the decision is
wanted `1.0.0` / newest `2.0.0`, and wanted is not semver-greater than
newest. -/
theorem c3_witness : miniSemver.lt "2.0.0" "1.0.0" = false :=
  (c3_wanted_never_above_newest miniSemver miniSemverSpec parseDateNum 150 0
    [("1.0.0", some "100"), ("2.0.0", some "200"), ("modified", some "300")]
    "latest" "p " "1.0.0" [("latest", some "2.0.0")]).1
    ⟨some "2.0.0", "1.0.0"⟩ "2.0.0" (by decide) (by decide)

/-- Concrete instance of C4: the literal `weird` is returned verbatim even
though it parses as no range, and over `<=1.5.0` the highest satisfying
member is returned. -/
theorem c4_witness :
    findByRange miniSemver ["weird", "1.0.0"] "weird" = some "weird"
    ∧ ("1.0.0" : String) ∈ ["1.0.0", "2.0.0"]
      ∧ miniSemver.satisfies "1.0.0" "<=1.5.0" = true
      ∧ ∀ u ∈ ["1.0.0", "2.0.0"], miniSemver.satisfies u "<=1.5.0" = true →
          miniSemver.lt "1.0.0" u = false :=
  ⟨(c4_find_by_range_exact_precedence miniSemver miniSemverSpec
      ["weird", "1.0.0"] "weird").1 (by decide),
   ((c4_find_by_range_exact_precedence miniSemver miniSemverSpec
      ["1.0.0", "2.0.0"] "<=1.5.0").2 (by decide)).1 "1.0.0" (by decide)⟩

/-- Concrete instance of C6: the `all` scope prompts an unchanged package,
and a failed decision never prompts even under the `all` scope. -/
theorem c6_witness :
    shouldAskVersion "all" (versionStatus "1.0.0" "1.0.0" "1.0.0") = true
    ∧ (updatePackage miniSemver parseDateNum 1000000 1000000 "all" [] "npm"
        (fun _ w => w) "pkg" "p " "1.0.0"
        (some ⟨some [("latest", some "2.0.0")],
          some [("1.0.0", some "100"), ("2.0.0", some "200"),
            ("modified", some "300")]⟩)).asked = none :=
  ⟨(c6_ask_gate_truth_table.1 "1.0.0" "1.0.0" "1.0.0").1,
   c6_ask_gate_truth_table.2 miniSemver parseDateNum 1000000 1000000 "all" []
     "npm" (fun _ w => w) "pkg" "p " "1.0.0" [("latest", some "2.0.0")]
     [("1.0.0", some "100"), ("2.0.0", some "200"), ("modified", some "300")]
     (by decide)⟩

/-- Concrete instance of C9: a missing catalog leaves the declared version
in place, a failed resolution leaves it in place, and the update loop
splits over list concatenation. -/
theorem c9_witness :
    (updatePackage miniSemver parseDateNum 0 0 "none" [] "npm" (fun _ w => w)
      "pkg" "p " "1.0.0" none).result = "1.0.0"
    ∧ (updatePackage miniSemver parseDateNum 1000000 1000000 "none" [] "npm"
        (fun _ w => w) "pkg" "p " "1.0.0"
        (some ⟨some [("latest", some "2.0.0")],
          some [("1.0.0", some "100"), ("2.0.0", some "200")]⟩)).result = "1.0.0"
    ∧ updateAll miniSemver parseDateNum 0 0 "none" [] "npm" (fun _ w => w)
        (fun n => n) (fun _ => none) ([("a", "1.0.0")] ++ ("b", "2.0.0") :: [])
      = updateAll miniSemver parseDateNum 0 0 "none" [] "npm" (fun _ w => w)
          (fun n => n) (fun _ => none) [("a", "1.0.0")]
        ++ updateAll miniSemver parseDateNum 0 0 "none" [] "npm" (fun _ w => w)
          (fun n => n) (fun _ => none) [("b", "2.0.0")]
        ++ updateAll miniSemver parseDateNum 0 0 "none" [] "npm" (fun _ w => w)
          (fun n => n) (fun _ => none) [] :=
  ⟨(c9_per_package_failure_nonfatal.1 miniSemver parseDateNum 0 0 "none" []
      "npm" (fun _ w => w) "pkg" "p " "1.0.0" none (Or.inl (by decide))
      (by decide)).1,
   (c9_per_package_failure_nonfatal.2.1 miniSemver parseDateNum 1000000
      1000000 "none" [] "npm" (fun _ w => w) "pkg" "p " "1.0.0"
      [("latest", some "2.0.0")]
      [("1.0.0", some "100"), ("2.0.0", some "200")] (Or.inl (by decide))
      (by decide)).1,
   c9_per_package_failure_nonfatal.2.2 miniSemver parseDateNum 0 0 "none" []
      "npm" (fun _ w => w) (fun n => n) (fun _ => none) [("a", "1.0.0")] []
      ("b", "2.0.0")⟩

/-- Concrete instance of C10: with ask scope `all` and a selector choice
`9.9.9` that is neither age-eligible nor policy-satisfying, the choice is
committed verbatim, the full unfiltered list was offered, and the committed
choice is outside the age-eligible list. -/
theorem c10_witness :
    (updatePackage miniSemver parseDateNum 150 0 "all" [] "npm"
      (fun _ _ => "9.9.9") "pkg" "p " "1.0.0"
      (some ⟨some [("latest", some "2.0.0")],
        some [("1.0.0", some "100"), ("2.0.0", some "200")]⟩)).result = "9.9.9"
    ∧ (updatePackage miniSemver parseDateNum 150 0 "all" [] "npm"
        (fun _ _ => "9.9.9") "pkg" "p " "1.0.0"
        (some ⟨some [("latest", some "2.0.0")],
          some [("1.0.0", some "100"), ("2.0.0", some "200")]⟩)).asked =
      some ((versionInfoToAllowedVersions parseDateNum 150 0
        [("1.0.0", some "100"), ("2.0.0", some "200")]).2, "1.0.0")
    ∧ ("9.9.9" : String) ∉ (versionInfoToAllowedVersions parseDateNum 150 0
        [("1.0.0", some "100"), ("2.0.0", some "200")]).1
    ∧ miniSemver.satisfies "9.9.9"
        (resolveDesiredRange [("latest", some "2.0.0")] "latest") = false :=
  ⟨(c10_ask_full_list_verbatim_commit miniSemver parseDateNum 150 0 "all" []
      "npm" (fun _ _ => "9.9.9") "pkg" "p " "1.0.0" "2.0.0"
      [("latest", some "2.0.0")] [("1.0.0", some "100"), ("2.0.0", some "200")]
      ⟨some "2.0.0", "1.0.0"⟩ (Or.inl (by decide)) (by decide) (by decide)
      (by decide)).1,
   (c10_ask_full_list_verbatim_commit miniSemver parseDateNum 150 0 "all" []
      "npm" (fun _ _ => "9.9.9") "pkg" "p " "1.0.0" "2.0.0"
      [("latest", some "2.0.0")] [("1.0.0", some "100"), ("2.0.0", some "200")]
      ⟨some "2.0.0", "1.0.0"⟩ (Or.inl (by decide)) (by decide) (by decide)
      (by decide)).2.1,
   by decide, by decide⟩
